import Mathlib

/-!
# Verification of the romnexity conversation-state and answer-synthesis core

Shallow embedding of the repository's core logic:

* the Citation Extractor and the Answer Synthesis Orchestrator handler
  (`POST` in the `/api/search` route);
* the Conversation Store (`useChatHistory.ts`, first variant, whose line
  numbers the claims reference): `createNewChat`, `addMessageToChat`,
  `generateChatTitle`, `deleteChat`, `getCurrentChat`, the localStorage
  load effect and `saveChats`;
* a JS-faithful model of the ISO-8601 date round trip performed by
  `JSON.stringify` / `new Date(...)` during persistence.

JS strings are modelled as `List Char` (abbreviated `Str`); JS `Date`
values as `Nat` milliseconds since the epoch (every timestamp the program
creates comes from `Date.now()`, hence is non-negative).  Nondeterministic
inputs (`Date.now()`, random id suffixes, upstream API results) are passed
to the operations as explicit parameters.
-/

abbrev Str := List Char

/-! ## Character classes used by the JS string operations -/

/-- ASCII uppercase letter, as matched by the JS character class `[A-Z]`. -/
def isUpperA (c : Char) : Bool := 'A' ≤ c && c ≤ 'Z'

/-- ASCII lowercase letter, as matched by the JS character class `[a-z]`. -/
def isLowerA (c : Char) : Bool := 'a' ≤ c && c ≤ 'z'

/-- ASCII digit, as matched by the JS character class `\d`. -/
def isDig (c : Char) : Bool := '0' ≤ c && c ≤ '9'

/-- JS word character (`\w`), the class that decides `\b` word boundaries. -/
def isWordC (c : Char) : Bool := isUpperA c || isLowerA c || isDig c || c == '_'

/-- Whitespace as matched by JS `\s` and removed by `String.prototype.trim`
(ASCII subset: space, tab, and the line/page separators). -/
def isWsC (c : Char) : Bool :=
  c == ' ' || c == '\t' || c == '\n' || c == '\r' || c == '\x0b' || c == '\x0c'

/-- JS `String.prototype.trim` (ASCII whitespace). -/
def jsTrim (s : Str) : Str :=
  ((s.dropWhile isWsC).reverse.dropWhile isWsC).reverse

/-- JS `String.prototype.toLowerCase` restricted to ASCII, which is all the
source ever lowercases. -/
def jsLowerC (c : Char) : Char :=
  if isUpperA c then Char.ofNat (c.toNat + 32) else c

def jsLower (s : Str) : Str := s.map jsLowerC

/-- JS `String.prototype.toUpperCase` on one character (ASCII). -/
def jsUpperC (c : Char) : Char :=
  if isLowerA c then Char.ofNat (c.toNat - 32) else c

/-- JS `needle` is a prefix of `hay` (used for `startsWith` and `includes`). -/
def strStarts : Str → Str → Bool
  | _, [] => true
  | [], _ :: _ => false
  | h :: hs, n :: ns => h == n && strStarts hs ns

/-- JS `String.prototype.includes`: `needle` occurs somewhere in `hay`. -/
def strIncludes (hay needle : Str) : Bool :=
  match hay with
  | [] => strStarts [] needle
  | _ :: rest => strStarts hay needle || strIncludes rest needle

/-- JS `String.prototype.split(' ')`: split on every single space character;
`""` splits to `[""]` and adjacent separators produce empty fields. -/
def splitSpaceAux : Str → Str → List Str
  | [], cur => [cur.reverse]
  | c :: cs, cur =>
    if c == ' ' then cur.reverse :: splitSpaceAux cs [] else splitSpaceAux cs (c :: cur)

def splitSpace (s : Str) : List Str := splitSpaceAux s []

/-- JS `Array.prototype.join(' ')`. -/
def joinSpace : List Str → Str
  | [] => []
  | [w] => w
  | w :: ws => w ++ ' ' :: joinSpace ws

/-! ## Decimal numerals (shared by the citation regex and the date codec) -/

/-- Digit character for a value below ten. -/
def digitChar (n : Nat) : Char := Char.ofNat (48 + n)

/-- Numeric value of a decimal digit character. -/
def digitVal (c : Char) : Nat := c.toNat - 48

/-- Decimal value of a digit string, most significant first (the semantics of
JS `parseInt` on an all-digit string). -/
def ofDigits (ds : Str) : Nat := ds.foldl (fun a c => 10 * a + digitVal c) 0

/-- Decimal digits of `n`, most significant first; fuel-structured so it
reduces definitionally (the fuel argument strictly dominates `n`). -/
def natDigitsAux : Nat → Nat → Str
  | 0, _ => []
  | fuel + 1, n =>
    if n < 10 then [digitChar n] else natDigitsAux fuel (n / 10) ++ [digitChar (n % 10)]

def natDigits (n : Nat) : Str := natDigitsAux (n + 1) n

/-- Left-pad a digit string with zeros to width `w`
(JS `String.prototype.padStart(w, '0')`). -/
def padTo (w : Nat) (ds : Str) : Str := List.replicate (w - ds.length) '0' ++ ds

def pad2 (n : Nat) : Str := padTo 2 (natDigits n)
def pad3 (n : Nat) : Str := padTo 3 (natDigits n)
def pad4 (n : Nat) : Str := padTo 4 (natDigits n)

/-! ## Data model (`src/types/index.ts`) -/

structure SearchResult where
  title : String
  url : String
  content : String
  score : Option Rat
deriving DecidableEq, Repr

structure Citation where
  index : Nat
  url : String
  title : String
deriving DecidableEq, Repr

structure SearchResponse where
  query : Str
  answer : Str
  sources : List SearchResult
  citations : List Citation
deriving DecidableEq, Repr

structure ChatMessage where
  id : String
  query : Str
  response : SearchResponse
  timestamp : Nat
deriving DecidableEq, Repr

structure Chat where
  id : String
  title : Str
  messages : List ChatMessage
  createdAt : Nat
  updatedAt : Nat
deriving DecidableEq, Repr

structure ChatHistoryState where
  chats : List Chat
  currentChatId : Option String
  isLoading : Bool
deriving DecidableEq, Repr

/-! ## Citation Extractor (`POST`, step 3 of the route handler)

The source scans the answer with the global regex `\[(\d+)\]`, removes
duplicate numbers by the `arr.indexOf(num) === index` idiom, keeps the
numbers within `1..sources.length`, and resolves each against
`sources[num - 1]`. -/

/-- One pass of the global regex `\[(\d+)\]`: at a `[` the engine takes a
maximal nonempty digit run and requires an immediate `]`; otherwise it
advances one character.  Fuel bounds the scan by the string length. -/
def scanMarkersAux : Nat → Str → List Nat
  | 0, _ => []
  | fuel + 1, cs =>
    match cs with
    | [] => []
    | '[' :: cs' =>
      let ds := cs'.takeWhile isDig
      match ds, cs'.drop ds.length with
      | _ :: _, ']' :: rest => ofDigits ds :: scanMarkersAux fuel rest
      | _, _ => scanMarkersAux fuel cs'
    | _ :: cs' => scanMarkersAux fuel cs'

/-- All `[n]` citation markers of an answer, in scan order, as parsed numbers. -/
def markers (answer : Str) : List Nat := scanMarkersAux (answer.length + 1) answer

/-- JS `Array.prototype.indexOf` on a number list (first index; the source
only consults it at positions where the element is present). -/
def jsIndexOfNat : List Nat → Nat → Nat
  | [], _ => 0
  | m :: rest, n => if m = n then 0 else jsIndexOfNat rest n + 1

/-- The `filter((num, index, arr) => arr.indexOf(num) === index)` dedup:
keep each element whose first occurrence index is its own index. -/
def filterFirstAux (l : List Nat) : Nat → List Nat → List Nat
  | _, [] => []
  | i, n :: rest =>
    (if jsIndexOfNat l n = i then [n] else []) ++ filterFirstAux l (i + 1) rest

def filterFirst (l : List Nat) : List Nat := filterFirstAux l 0 l

/-- Placeholder source used to express JS's (never exercised) out-of-bounds
indexing; the extractor only indexes after the in-range filter. -/
def blankSource : SearchResult := { title := "", url := "", content := "", score := none }

/-- Citation Extractor: markers, dedup by first occurrence, in-range filter,
resolution against `sources[n-1]`. -/
def extractCitations (answer : Str) (sources : List SearchResult) : List Citation :=
  let nums := markers answer
  let distinct := filterFirst nums
  let valid := distinct.filter (fun n => 0 < n && n ≤ sources.length)
  valid.map (fun n =>
    { index := n
      url := (sources.getD (n - 1) blankSource).url
      title := (sources.getD (n - 1) blankSource).title })

/-- Specification-side dedup, written from the claim's words "the distinct
integers in order of first appearance": fold left, appending each number
not seen before. -/
def dedupFirstSpec (l : List Nat) : List Nat :=
  l.foldl (fun acc n => if n ∈ acc then acc else acc ++ [n]) []

/-- Recursive dedup with an explicit seen-set accumulator; the bridge between
the source's indexed filter and the specification's fold. -/
def dedupSeen : List Nat → List Nat → List Nat
  | _, [] => []
  | seen, n :: rest =>
    if n ∈ seen then dedupSeen seen rest else n :: dedupSeen (seen ++ [n]) rest

/-! ## Title Synthesizer (`generateChatTitle`, `useChatHistory.ts` 131-190)

The proper-noun extraction is the JS global regex
`\b[A-Z][a-z]+(?:\s+[A-Z][a-z]+)*\b`.  The engine below mirrors backtracking
semantics: each `[A-Z][a-z]+` unit takes a maximal lowercase run (giving
characters back can never restore the trailing `\b`, since a boundary never
falls between two word characters), the starred group extends greedily with
`\s+`-separated units, and a failed trailing `\b` drops the last extension,
after which the boundary sits before that extension's whitespace and holds. -/

/-- Match one `[A-Z][a-z]+` unit at the front of the string. -/
def matchUnit : Str → Option (Str × Str)
  | [] => none
  | c :: cs =>
    if isUpperA c then
      let lows := cs.takeWhile isLowerA
      if lows.isEmpty then none else some (c :: lows, cs.drop lows.length)
    else none

/-- Greedily collect `(?:\s+[A-Z][a-z]+)` extensions, returning each matched
segment (whitespace plus unit) and the remainder.  Fuel bounds the walk by
the string length; every iteration consumes at least one character. -/
def collectExtsAux : Nat → Str → List Str × Str
  | 0, cs => ([], cs)
  | fuel + 1, cs =>
    let ws := cs.takeWhile isWsC
    if ws.isEmpty then ([], cs)
    else
      match matchUnit (cs.drop ws.length) with
      | none => ([], cs)
      | some (u, rest) =>
        let (segs, rest') := collectExtsAux fuel rest
        ((ws ++ u) :: segs, rest')

/-- The trailing `\b`: holds at end of string or before a non-word character. -/
def bOk : Str → Bool
  | [] => true
  | c :: _ => !isWordC c

/-- Attempt the proper-noun regex at the current position (the leading `\b`
is checked by the scanner).  On a failed trailing boundary the last
extension is given back. -/
def matchPNAt (cs : Str) : Option (Str × Str) :=
  match matchUnit cs with
  | none => none
  | some (u, rest) =>
    let (segs, rest') := collectExtsAux rest.length rest
    if bOk rest' then some (u ++ segs.flatten, rest')
    else
      match segs.getLast? with
      | none => none
      | some lastSeg => some (u ++ segs.dropLast.flatten, lastSeg ++ rest')

/-- Global scan of `String.prototype.match(..../g)`: attempt the pattern at
each position whose left context is a word boundary; after a match, resume
at its end.  `prev` is the character before the current position. -/
def scanPN : Nat → Option Char → Str → List Str
  | 0, _, _ => []
  | fuel + 1, prev, cs =>
    match cs with
    | [] => []
    | c :: cs' =>
      let atBoundary := match prev with | none => true | some p => !isWordC p
      if atBoundary then
        match matchPNAt cs with
        | some (m, rest) => m :: scanPN fuel m.getLast? rest
        | none => scanPN fuel (some c) cs'
      else scanPN fuel (some c) cs'

/-- `response.answer.match(/\b[A-Z][a-z]+(?:\s+[A-Z][a-z]+)*\b/g) || []`. -/
def properNounsOf (answer : Str) : List Str := scanPN (answer.length + 1) none answer

/-- Stop-word list applied to the query words. -/
def queryStopWords : List Str :=
  ["what", "how", "why", "when", "where", "the", "and", "but", "for", "with",
   "about"].map String.data

/-- `query.toLowerCase().split(' ').filter(...)`. -/
def queryWordsOf (q : Str) : List Str :=
  (splitSpace (jsLower q)).filter
    (fun w => decide (3 < w.length) && !(queryStopWords.contains w))

/-- Stop-word list applied to the answer words. -/
def answerStopWords : List Str :=
  ["what", "how", "why", "when", "where", "the", "and", "but", "for", "with",
   "about", "this", "that", "they", "them", "these", "those"].map String.data

/-- `response.answer.toLowerCase().split(' ').filter(...)` — computed but
never used by the source; kept for fidelity. -/
def responseWordsOf (ans : Str) : List Str :=
  (splitSpace (jsLower ans)).filter
    (fun w => decide (4 < w.length) && !(answerStopWords.contains w))

/-- `mainKeywords.charAt(0).toUpperCase() + mainKeywords.slice(1)`. -/
def capitalizeFirst : Str → Str
  | [] => []
  | c :: rest => jsUpperC c :: rest

/-- The candidate title before the final length cap and empty fallback:
the body of `generateChatTitle`'s priority cascade. -/
def titleCandidate (query : Str) (response : SearchResponse) : Str :=
  let queryWords := queryWordsOf query
  match properNounsOf response.answer with
  | mainTopic :: _ =>
    if queryWords.any (fun w => strIncludes w "what".data) then
      "What is ".data ++ mainTopic ++ "?".data
    else if queryWords.any (fun w => strIncludes w "how".data) then
      "How ".data ++ mainTopic ++ " works".data
    else
      "About ".data ++ mainTopic
  | [] =>
    match queryWords with
    | _ :: _ =>
      let mainKeywords := joinSpace (queryWords.take 3)
      if strStarts (jsLower query) "what".data then
        "What is ".data ++ mainKeywords ++ "?".data
      else if strStarts (jsLower query) "how".data then
        "How to ".data ++ mainKeywords
      else if strStarts (jsLower query) "why".data then
        "Why ".data ++ mainKeywords ++ "?".data
      else
        capitalizeFirst mainKeywords
    | [] =>
      if 50 < query.length then query.take 47 ++ "...".data else query

/-- `generateChatTitle` (`useChatHistory.ts` 131-190): candidate cascade,
then a 60-character cap with ellipsis, then `title || query.substring(0,50)`.
The body never throws, so the `catch` fallback is unreachable. -/
def generateChatTitle (query : Str) (response : SearchResponse) : Str :=
  let title := titleCandidate query response
  let title := if 60 < title.length then title.take 57 ++ "...".data else title
  if title.isEmpty then query.take 50 else title

/-! ## Answer Synthesis Orchestrator (`POST` of the `/api/search` route)

The upstream collaborators are oracles fixed in an environment: the Tavily
search call (already mapped to `SearchResult` records, a field-for-field
copy in the source) and the OpenAI completion's
`choices[0]?.message?.content`.  A thrown upstream error carries the JS
`error.code` consulted by the catch block.  The handler result is paired
with the list of upstream calls issued, in order. -/

inductive Outcome (α : Type) where
  | ok (value : α)
  | threw (code : Option String)
deriving DecidableEq, Repr

structure OrchestratorEnv where
  openAIKey : Bool
  tavilyKey : Bool
  search : Outcome (List SearchResult)
  generate : Outcome (Option Str)
deriving DecidableEq, Repr

/-- The request body's `query` field: `none` models an absent or non-string
value (both fail the `!query || typeof query !== 'string'` validation the
same way an empty string does). -/
structure ApiRequest where
  query : Option Str
deriving DecidableEq, Repr

inductive ApiResult where
  | ok (resp : SearchResponse) (status : Nat)
  | err (msg : String) (status : Nat)
deriving DecidableEq, Repr

inductive UpCall where
  | search
  | generate
deriving DecidableEq, Repr

/-- The route's catch block, dispatching on `error.code`. -/
def catchErr (code : Option String) : ApiResult :=
  if code = some "insufficient_quota" then
    .err "API quota exceeded. Please try again later." 429
  else if code = some "invalid_api_key" then
    .err "Invalid API configuration" 401
  else if code = some "ENOTFOUND" ∨ code = some "ETIMEDOUT" then
    .err "Network error. Please check your connection and try again." 503
  else
    .err "An error occurred while processing your request. Please try again." 500

/-- JS `x || fallback` on the completion content: `null`/`undefined` and the
empty string are falsy. -/
def jsOrStr (x : Option Str) (fallback : Str) : Str :=
  match x with
  | none => fallback
  | some s => if s.isEmpty then fallback else s

/-- The `POST` handler: validation, key check, retrieval, generation,
citation extraction, response assembly.  Prompt-text assembly is pure string
building with no observable effect and is not modelled. -/
def POST (env : OrchestratorEnv) (req : ApiRequest) : ApiResult × List UpCall :=
  match req.query with
  | none => (.err "Query is required and must be a non-empty string" 400, [])
  | some q =>
    if (jsTrim q).length = 0 then
      (.err "Query is required and must be a non-empty string" 400, [])
    else if !(env.openAIKey && env.tavilyKey) then
      (.err "API keys not configured" 500, [])
    else
      match env.search with
      | .threw code => (catchErr code, [.search])
      | .ok sources =>
        match env.generate with
        | .threw code => (catchErr code, [.search, .generate])
        | .ok content =>
          let answer := jsOrStr content "Unable to generate response".data
          let citations := extractCitations answer sources
          (.ok { query := jsTrim q, answer := answer, sources := sources,
                 citations := citations } 200,
           [.search, .generate])

/-! ## Conversation Store (`useChatHistory.ts`, first variant)

Fresh identifiers (`chat_${Date.now()}_${random}`, `msg_...`) and `Date.now()`
instants are inputs.  JS truthiness on the current pointer: `null` and the
empty string are both falsy, so both trigger the silent-repair path. -/

def initialChatState : ChatHistoryState :=
  { chats := [], currentChatId := none, isLoading := false }

/-- `createNewChat` (lines 46-71): placeholder title, prepend, set current.
JS `firstQuery ? 'New Chat...' : 'New Chat'` treats the empty string as
absent. -/
def createNewChat (st : ChatHistoryState) (newChatId : String) (now : Nat)
    (firstQuery : Option Str) : ChatHistoryState :=
  let title : Str :=
    match firstQuery with
    | some q => if q.isEmpty then "New Chat".data else "New Chat...".data
    | none => "New Chat".data
  let newChat : Chat :=
    { id := newChatId, title := title, messages := [], createdAt := now, updatedAt := now }
  { st with chats := newChat :: st.chats, currentChatId := some newChatId }

/-- The per-chat update mapped over the collection by `addMessageToChat`:
append the message, bump `updatedAt`, and on a first message rewrite the
title in place, all keyed by identifier. -/
def updateChatWith (cid : String) (msg : ChatMessage) (now : Nat) (newTitle : Str)
    (chat : Chat) : Chat :=
  if chat.id == cid then
    { chat with
      messages := chat.messages ++ [msg]
      updatedAt := now
      title := if chat.messages.isEmpty then newTitle else chat.title }
  else chat

/-- `addMessageToChat` (lines 74-128).  `!currentChatId ||
!prev.chats.find(c => c.id === currentChatId)` repairs a falsy (`null` or
`""`) or stale pointer by creating a chat titled from the response first. -/
def addMessageToChat (st : ChatHistoryState) (newChatId msgId : String) (now : Nat)
    (query : Str) (response : SearchResponse) : ChatHistoryState :=
  let needRepair : Bool :=
    match st.currentChatId with
    | none => true
    | some cid => cid == "" || (st.chats.find? (fun c => c.id == cid)).isNone
  let st1 :=
    if needRepair then
      let newChat : Chat :=
        { id := newChatId, title := generateChatTitle query response,
          messages := [], createdAt := now, updatedAt := now }
      { st with chats := newChat :: st.chats, currentChatId := some newChatId }
    else st
  let cid := st1.currentChatId.getD ""
  let newMessage : ChatMessage :=
    { id := msgId, query := query, response := response, timestamp := now }
  let updatedChats :=
    st1.chats.map (updateChatWith cid newMessage now (generateChatTitle query response))
  { st1 with chats := updatedChats, currentChatId := some cid }

/-- `deleteChat` (lines 201-215). -/
def deleteChat (st : ChatHistoryState) (chatId : String) : ChatHistoryState :=
  let updatedChats := st.chats.filter (fun c => !(c.id == chatId))
  let newCurrentChatId :=
    if st.currentChatId = some chatId then
      match updatedChats with
      | [] => none
      | c :: _ => some c.id
    else st.currentChatId
  { st with chats := updatedChats, currentChatId := newCurrentChatId }

/-- `getCurrentChat` (lines 228-231); `!chatState.currentChatId` is truthy
falseness, so an empty-string pointer short-circuits to `null`. -/
def getCurrentChat (st : ChatHistoryState) : Option Chat :=
  match st.currentChatId with
  | none => none
  | some cid => if cid == "" then none else st.chats.find? (fun c => c.id == cid)

/-- Modelled from the spec: the completion handler of the delegated
asynchronous title synthesis is absent from the sources (both store variants
rename synchronously inside `addMessageToChat`); per the spec the handler
"rewrites that chat's title in place by identifier lookup — never by
position", the same identifier-keyed map the synchronous rename uses. -/
def rewriteTitle (chats : List Chat) (chatId : String) (newTitle : Str) : List Chat :=
  chats.map (fun c => if c.id == chatId then { c with title := newTitle } else c)

/-! ### Operation sequences (for the store invariants) -/

inductive StoreOp where
  | newChat (id : String) (now : Nat) (firstQuery : Option Str)
  | addMsg (newChatId msgId : String) (now : Nat) (query : Str) (response : SearchResponse)
deriving Repr

def StoreOp.now : StoreOp → Nat
  | .newChat _ t _ => t
  | .addMsg _ _ t _ _ => t

def applyOp (st : ChatHistoryState) : StoreOp → ChatHistoryState
  | .newChat id t q => createNewChat st id t q
  | .addMsg nid mid t q r => addMessageToChat st nid mid t q r

def runOps (st : ChatHistoryState) : List StoreOp → ChatHistoryState
  | [] => st
  | op :: ops => runOps (applyOp st op) ops

/-- The instants observed by successive operations never decrease (what
`Date.now()` guarantees across a single session). -/
def Chrono (ops : List StoreOp) : Prop := List.Chain' (· ≤ ·) (ops.map StoreOp.now)

/-! ## Persistence (`saveChats`, the load effect, and the date codec)

`JSON.stringify` serializes a `Date` through `toISOString`
(`YYYY-MM-DDTHH:mm:ss.sssZ`), and the load effect rebuilds each instant with
`new Date(isoString)`.  The codec below implements that calendar arithmetic
over `Nat` milliseconds: day split by the Gregorian year lengths from 1970,
then the month-length table.  (For years beyond 9999 the model emits plain
wider year digits rather than the `+`-signed expanded form; the parse reads
the digits back identically, so the round trip is unaffected.) -/

def isLeap (y : Nat) : Bool := (y % 4 == 0 && y % 100 != 0) || y % 400 == 0

def daysInYear (y : Nat) : Nat := if isLeap y then 366 else 365

def monthLengths (leap : Bool) : List Nat :=
  [31, if leap then 29 else 28, 31, 30, 31, 30, 31, 31, 30, 31, 30, 31]

/-- Split days-since-epoch into (year, day-of-year), walking forward from
1970.  Fuel dominates the walk: every step removes at least 365 days. -/
def yearDoyAux : Nat → Nat → Nat → Nat × Nat
  | 0, y, d => (y, d)
  | fuel + 1, y, d =>
    if d < daysInYear y then (y, d) else yearDoyAux fuel (y + 1) (d - daysInYear y)

def yearDoy (d : Nat) : Nat × Nat := yearDoyAux d 1970 d

/-- Days from 1970-01-01 to the start of the `n`-th year after 1970. -/
def daysBeforeYearAux : Nat → Nat
  | 0 => 0
  | n + 1 => daysBeforeYearAux n + daysInYear (1970 + n)

def daysBeforeYear (y : Nat) : Nat := daysBeforeYearAux (y - 1970)

/-- Split a day-of-year along a month-length table into
(zero-based month, zero-based day-of-month). -/
def monthDoyAux : List Nat → Nat → Nat × Nat
  | [], d => (0, d)
  | ml :: rest, d =>
    if d < ml then (0, d)
    else
      let (m, r) := monthDoyAux rest (d - ml)
      (m + 1, r)

/-- `Date.prototype.toISOString` for a non-negative time value. -/
def toISOString (t : Nat) : Str :=
  let d := t / 86400000
  let rem := t % 86400000
  let yd := yearDoy d
  let md := monthDoyAux (monthLengths (isLeap yd.1)) yd.2
  pad4 yd.1 ++ '-' :: pad2 (md.1 + 1) ++ '-' :: pad2 (md.2 + 1) ++
    'T' :: pad2 (rem / 3600000) ++ ':' :: pad2 (rem % 3600000 / 60000) ++
    ':' :: pad2 (rem % 60000 / 1000) ++ '.' :: pad3 (rem % 1000) ++ ['Z']

/-- `new Date(isoString).getTime()` on a well-formed ISO string: read the
year digits up to the first `-`, then the fixed-width fields, and recombine.
A string not of the expected shape yields 0 (the source never produces
one). -/
def parseISO (s : Str) : Nat :=
  let ydigits := s.takeWhile isDig
  match s.drop ydigits.length with
  | '-' :: m1 :: m2 :: '-' :: d1 :: d2 :: 'T' :: h1 :: h2 :: ':' :: i1 :: i2 ::
      ':' :: s1 :: s2 :: '.' :: x1 :: x2 :: x3 :: 'Z' :: [] =>
    let y := ofDigits ydigits
    let mo := ofDigits [m1, m2]
    let day := ofDigits [d1, d2]
    let days := daysBeforeYear y + ((monthLengths (isLeap y)).take (mo - 1)).sum + (day - 1)
    days * 86400000 + ofDigits [h1, h2] * 3600000 + ofDigits [i1, i2] * 60000 +
      ofDigits [s1, s2] * 1000 + ofDigits [x1, x2, x3]
  | _ => 0

/-- A `ChatMessage` as it sits in the durable slot: the `timestamp` field is
the ISO string `JSON.stringify` produced; every other field round-trips
through JSON unchanged. -/
structure StoredMsg where
  id : String
  query : Str
  response : SearchResponse
  timestamp : Str
deriving DecidableEq, Repr

structure StoredChat where
  id : String
  title : Str
  messages : List StoredMsg
  createdAt : Str
  updatedAt : Str
deriving DecidableEq, Repr

def storeMsg (m : ChatMessage) : StoredMsg :=
  { id := m.id, query := m.query, response := m.response,
    timestamp := toISOString m.timestamp }

def loadMsg (m : StoredMsg) : ChatMessage :=
  { id := m.id, query := m.query, response := m.response,
    timestamp := parseISO m.timestamp }

/-- `saveChats` (lines 37-43): the durable slot receives the serialized chats
array — nothing else, in particular not `currentChatId`. -/
def saveChats (chats : List Chat) : List StoredChat :=
  chats.map (fun c =>
    { id := c.id, title := c.title, messages := c.messages.map storeMsg,
      createdAt := toISOString c.createdAt, updatedAt := toISOString c.updatedAt })

/-- The date-reviving map of the load effect (lines 20-28). -/
def loadChats (stored : List StoredChat) : List Chat :=
  stored.map (fun c =>
    { id := c.id, title := c.title, messages := c.messages.map loadMsg,
      createdAt := parseISO c.createdAt, updatedAt := parseISO c.updatedAt })

/-- The durable slot at startup: absent key, unparseable content (the catch
branch), or parsed data. -/
inductive StoredSlot where
  | absent
  | corrupt
  | data (chats : List StoredChat)

/-- The mount-time load effect (lines 14-34): only `chats` is replaced;
`currentChatId` and `isLoading` keep their initial values. -/
def hydrate (slot : StoredSlot) : ChatHistoryState :=
  match slot with
  | .absent => initialChatState
  | .corrupt => initialChatState
  | .data stored => { initialChatState with chats := loadChats stored }

/-! # Theorems -/

/-! ## Claim C1: the Citation Extractor -/

theorem jsIndexOfNat_append_iff (pre : List Nat) (n : Nat) (rest : List Nat) :
    jsIndexOfNat (pre ++ n :: rest) n = pre.length ↔ n ∉ pre := by
  induction pre with
  | nil => simp [jsIndexOfNat]
  | cons m pre ih =>
    by_cases hmn : m = n
    · subst hmn
      simp [jsIndexOfNat]
    · simp only [List.cons_append, jsIndexOfNat, if_neg hmn, List.length_cons,
        Nat.add_right_cancel_iff, ih, List.mem_cons]
      tauto

theorem dedupSeen_congr (l : List Nat) :
    ∀ seen₁ seen₂, (∀ x, x ∈ seen₁ ↔ x ∈ seen₂) →
    dedupSeen seen₁ l = dedupSeen seen₂ l := by
  induction l with
  | nil => intro _ _ _; rfl
  | cons n l ih =>
    intro seen₁ seen₂ h
    simp only [dedupSeen]
    by_cases hn : n ∈ seen₁
    · rw [if_pos hn, if_pos ((h n).mp hn), ih _ _ h]
    · rw [if_neg hn, if_neg (fun hc => hn ((h n).mpr hc))]
      refine congrArg _ (ih _ _ ?_)
      intro x
      simp only [List.mem_append, List.mem_singleton, h x]

theorem filterFirstAux_eq_dedupSeen (rest : List Nat) :
    ∀ pre : List Nat, filterFirstAux (pre ++ rest) pre.length rest = dedupSeen pre rest := by
  induction rest with
  | nil => intro pre; rfl
  | cons n rest ih =>
    intro pre
    have htail : filterFirstAux (pre ++ n :: rest) (pre.length + 1) rest =
        dedupSeen (pre ++ [n]) rest := by
      have h := ih (pre ++ [n])
      rw [List.append_assoc, List.singleton_append, List.length_append,
        List.length_singleton] at h
      exact h
    by_cases hn : n ∈ pre
    · have hidx : ¬ jsIndexOfNat (pre ++ n :: rest) n = pre.length := by
        rw [jsIndexOfNat_append_iff]; simp [hn]
      simp only [filterFirstAux, if_neg hidx, List.nil_append, htail, dedupSeen, if_pos hn]
      refine dedupSeen_congr rest _ _ ?_
      intro x
      simp only [List.mem_append, List.mem_singleton]
      constructor
      · rintro (hx | rfl) <;> [exact hx; exact hn]
      · exact Or.inl
    · have hidx : jsIndexOfNat (pre ++ n :: rest) n = pre.length := by
        rw [jsIndexOfNat_append_iff]; exact hn
      simp only [filterFirstAux, if_pos hidx, List.singleton_append, htail,
        dedupSeen, if_neg hn]

theorem filterFirst_eq_dedupSeen (l : List Nat) : filterFirst l = dedupSeen [] l :=
  filterFirstAux_eq_dedupSeen l []

theorem dedupFirstSpec_eq_dedupSeen (l : List Nat) : dedupFirstSpec l = dedupSeen [] l := by
  have key : ∀ (l acc : List Nat),
      List.foldl (fun acc n => if n ∈ acc then acc else acc ++ [n]) acc l =
        acc ++ dedupSeen acc l := by
    intro l
    induction l with
    | nil => intro acc; simp [dedupSeen]
    | cons n l ih =>
      intro acc
      by_cases hn : n ∈ acc
      · simp only [List.foldl_cons, if_pos hn, dedupSeen, ih]
      · simp only [List.foldl_cons, if_neg hn, dedupSeen, ih, List.append_assoc,
          List.singleton_append]
  simpa using key l []

theorem dedupSeen_nodup (l : List Nat) :
    ∀ seen, (dedupSeen seen l).Nodup ∧ ∀ n ∈ dedupSeen seen l, n ∉ seen := by
  induction l with
  | nil => intro seen; simp [dedupSeen]
  | cons n l ih =>
    intro seen
    simp only [dedupSeen]
    by_cases hn : n ∈ seen
    · simpa [if_pos hn] using ih seen
    · rw [if_neg hn]
      obtain ⟨hnd, hmem⟩ := ih (seen ++ [n])
      refine ⟨List.nodup_cons.mpr ⟨fun hc => ?_, hnd⟩, ?_⟩
      · exact hmem n hc (by simp)
      · intro m hm
        rcases List.mem_cons.mp hm with rfl | hm'
        · exact hn
        · intro hc
          exact hmem m hm' (by simp [hc])

/-- Claim C1: for every answer string and ordered source list, the Citation
Extractor yields exactly one citation per distinct bracketed integer of the
answer in order of first appearance, restricted to `1 ≤ n ≤ len(sources)`
and resolved against `sources[n-1]`; out-of-range or zero markers are
silently dropped. -/
theorem claim_C1_citation_extractor (answer : Str) (sources : List SearchResult) :
    extractCitations answer sources =
      ((dedupFirstSpec (markers answer)).filter
          (fun n => 0 < n && n ≤ sources.length)).map
        (fun n => { index := n, url := (sources.getD (n - 1) blankSource).url,
                    title := (sources.getD (n - 1) blankSource).title }) ∧
    ((extractCitations answer sources).map Citation.index).Nodup ∧
    ∀ c ∈ extractCitations answer sources,
      ∃ h : c.index - 1 < sources.length,
        0 < c.index ∧ c.index ≤ sources.length ∧
        c.url = (sources.get ⟨c.index - 1, h⟩).url ∧
        c.title = (sources.get ⟨c.index - 1, h⟩).title := by
  have hdd : filterFirst (markers answer) = dedupFirstSpec (markers answer) := by
    rw [filterFirst_eq_dedupSeen, dedupFirstSpec_eq_dedupSeen]
  refine ⟨by simp only [extractCitations, hdd], ?_, ?_⟩
  · have hmm : (extractCitations answer sources).map Citation.index =
        (filterFirst (markers answer)).filter (fun n => 0 < n && n ≤ sources.length) := by
      simp only [extractCitations, List.map_map]
      exact List.map_id' _
    rw [hmm, filterFirst_eq_dedupSeen]
    exact ((dedupSeen_nodup (markers answer) []).1).filter _
  · intro c hc
    simp only [extractCitations, List.mem_map, List.mem_filter] at hc
    obtain ⟨n, ⟨-, hp⟩, rfl⟩ := hc
    have hn : 0 < n ∧ n ≤ sources.length := by
      simpa [decide_eq_true_eq] using hp
    have hlt : n - 1 < sources.length := by omega
    refine ⟨hlt, hn.1, hn.2, ?_, ?_⟩ <;>
      simp [List.getD_eq_getElem?_getD, List.getElem?_eq_getElem hlt, List.get_eq_getElem]

/-! ## Claims C3 and C10: the Orchestrator handler -/

/-- Claim C3: a request whose query is absent, not a string, or
whitespace-only after trimming is rejected with the 400 invalid-input
response, and no retrieval or generation call is issued. -/
theorem claim_C3_invalid_input (env : OrchestratorEnv) (req : ApiRequest)
    (h : req.query = none ∨ ∃ q, req.query = some q ∧ jsTrim q = []) :
    POST env req = (.err "Query is required and must be a non-empty string" 400, []) := by
  rcases h with h | ⟨q, hq, ht⟩
  · simp [POST, h]
  · simp [POST, hq, ht]

theorem claim_C3_witness :
    POST { openAIKey := true, tavilyKey := true, search := .ok [], generate := .ok none }
        { query := some "   ".data } =
      (.err "Query is required and must be a non-empty string" 400, []) :=
  claim_C3_invalid_input _ _ (Or.inr ⟨"   ".data, rfl, by decide⟩)

/-- Claim C10: when generation succeeds at the transport level but the
completion has no message content, the handler still returns a 200 response
whose answer is the literal fallback string, with the retrieved sources
attached and an empty citation list. -/
theorem claim_C10_empty_generation (env : OrchestratorEnv) (q : Str)
    (srcs : List SearchResult)
    (hk1 : env.openAIKey = true) (hk2 : env.tavilyKey = true)
    (hs : env.search = .ok srcs) (hg : env.generate = .ok none)
    (hq : jsTrim q ≠ []) :
    POST env { query := some q } =
      (.ok { query := jsTrim q, answer := "Unable to generate response".data,
             sources := srcs, citations := [] } 200,
       [.search, .generate]) := by
  have hm : markers "Unable to generate response".data = [] := by decide
  have hcit : extractCitations "Unable to generate response".data srcs = [] := by
    simp [extractCitations, hm, filterFirst, filterFirstAux]
  have hlen : ¬ (jsTrim q).length = 0 := by
    simpa [List.length_eq_zero] using hq
  simp [POST, hk1, hk2, hs, hg, jsOrStr, hlen, hcit]

theorem claim_C10_witness :
    POST { openAIKey := true, tavilyKey := true,
           search := .ok [{ title := "T", url := "u", content := "c", score := none }],
           generate := .ok none }
        { query := some "hello".data } =
      (.ok { query := jsTrim "hello".data,
             answer := "Unable to generate response".data,
             sources := [{ title := "T", url := "u", content := "c", score := none }],
             citations := [] } 200,
       [.search, .generate]) :=
  claim_C10_empty_generation _ _ _ rfl rfl rfl rfl (by decide)

/-! ## Claims C2 and C5: `addMessageToChat` postconditions and ordering -/

theorem updateChatWith_id (cid : String) (msg : ChatMessage) (now : Nat) (t : Str)
    (c : Chat) : (updateChatWith cid msg now t c).id = c.id := by
  unfold updateChatWith
  split <;> rfl

theorem find?_map_updateChatWith (chats : List Chat) (cid : String) (msg : ChatMessage)
    (now : Nat) (t : Str) (x : String) :
    (chats.map (updateChatWith cid msg now t)).find? (fun c => c.id == x) =
      (chats.find? (fun c => c.id == x)).map (updateChatWith cid msg now t) := by
  rw [List.find?_map]
  have hp : ((fun c => c.id == x) ∘ updateChatWith cid msg now t) =
      (fun c : Chat => c.id == x) := by
    funext c
    simp [Function.comp, updateChatWith_id]
  rw [hp]

/-- After `addMessageToChat` the current chat resolves, and its message list
is the previous list with the new message appended at the end. -/
theorem getCurrentChat_addMessage (st : ChatHistoryState) (nid mid : String)
    (now : Nat) (q : Str) (r : SearchResponse) (hnid : nid ≠ "") :
    ∃ pre chat, getCurrentChat (addMessageToChat st nid mid now q r) = some chat ∧
      chat.messages =
        pre ++ [{ id := mid, query := q, response := r, timestamp := now }] := by
  have hnidb : (nid == "") = false := by
    simpa using hnid
  rcases hcid : st.currentChatId with - | cid0
  · -- no pointer: repair path; the fresh chat is at the head of the list
    refine ⟨[], Chat.mk nid (generateChatTitle q r)
      [ChatMessage.mk mid q r now] now now, ?_, by simp⟩
    simp [addMessageToChat, hcid, getCurrentChat, hnidb, find?_map_updateChatWith,
      List.find?_cons, updateChatWith]
  · by_cases hcid0 : cid0 = ""
    · subst hcid0
      refine ⟨[], Chat.mk nid (generateChatTitle q r)
        [ChatMessage.mk mid q r now] now now, ?_, by simp⟩
      simp [addMessageToChat, hcid, getCurrentChat, hnidb, find?_map_updateChatWith,
        List.find?_cons, updateChatWith]
    · have hcid0b : (cid0 == "") = false := by simpa using hcid0
      rcases hfind : st.chats.find? (fun c => c.id == cid0) with - | c0
      · -- stale pointer: repair path
        refine ⟨[], Chat.mk nid (generateChatTitle q r)
          [ChatMessage.mk mid q r now] now now, ?_, by simp⟩
        simp [addMessageToChat, hcid, hcid0b, hfind, getCurrentChat, hnidb,
          find?_map_updateChatWith, List.find?_cons, updateChatWith]
      · -- live pointer: the found chat receives the append
        have hc0id : (c0.id == cid0) = true := by
          simpa using List.find?_some hfind
        refine ⟨c0.messages, updateChatWith cid0
          { id := mid, query := q, response := r, timestamp := now } now
          (generateChatTitle q r) c0, ?_, ?_⟩
        · simp only [addMessageToChat, hcid, hcid0b, hfind, Option.isNone_some,
            Bool.or_false, beq_self_eq_true, Option.getD_some, getCurrentChat,
            Bool.false_or, cond_false, if_neg, ite_false, Bool.false_eq_true,
            not_false_eq_true]
          rw [find?_map_updateChatWith, hfind]
          rfl
        · simp [updateChatWith, hc0id]

/-- The silent-repair path: with a missing or stale pointer, one new chat is
created to hold the message. -/
theorem addMessage_repair_length (st : ChatHistoryState) (nid mid : String)
    (now : Nat) (q : Str) (r : SearchResponse)
    (h : st.currentChatId = none ∨ ∀ c ∈ st.chats, some c.id ≠ st.currentChatId) :
    (addMessageToChat st nid mid now q r).chats.length = st.chats.length + 1 := by
  rcases hcid : st.currentChatId with - | cid0
  · simp [addMessageToChat, hcid]
  · rcases h with h | h
    · rw [hcid] at h; cases h
    · have hfind : st.chats.find? (fun c => c.id == cid0) = none := by
        rw [List.find?_eq_none]
        intro c hc
        have := h c hc
        rw [hcid] at this
        simpa using fun he => this (by rw [he])
      by_cases hcid0 : cid0 = ""
      · subst hcid0
        simp [addMessageToChat, hcid]
      · have hcid0b : (cid0 == "") = false := by simpa using hcid0
        simp [addMessageToChat, hcid, hcid0b, hfind]

/-- Claim C2: after `addMessageToChat`, `currentChatId` references an
existing chat containing the just-added message; a missing or stale prior
pointer is silently repaired by creating a fresh chat. -/
theorem claim_C2_current_chat_contains_message (st : ChatHistoryState)
    (nid mid : String) (now : Nat) (q : Str) (r : SearchResponse) (hnid : nid ≠ "") :
    (∃ chat, getCurrentChat (addMessageToChat st nid mid now q r) = some chat ∧
      ({ id := mid, query := q, response := r, timestamp := now } : ChatMessage)
        ∈ chat.messages) ∧
    ((st.currentChatId = none ∨ ∀ c ∈ st.chats, some c.id ≠ st.currentChatId) →
      (addMessageToChat st nid mid now q r).chats.length = st.chats.length + 1) := by
  obtain ⟨pre, chat, hcur, hmsgs⟩ := getCurrentChat_addMessage st nid mid now q r hnid
  exact ⟨⟨chat, hcur, by rw [hmsgs]; simp⟩,
    addMessage_repair_length st nid mid now q r⟩

theorem claim_C2_witness :
    (∃ chat, getCurrentChat (addMessageToChat initialChatState "chat_1" "msg_1" 5
        "hi".data { query := [], answer := [], sources := [], citations := [] }) =
          some chat ∧
      ({ id := "msg_1", query := "hi".data,
         response := { query := [], answer := [], sources := [], citations := [] },
         timestamp := 5 } : ChatMessage) ∈ chat.messages) ∧
    ((initialChatState.currentChatId = none ∨
        ∀ c ∈ initialChatState.chats, some c.id ≠ initialChatState.currentChatId) →
      (addMessageToChat initialChatState "chat_1" "msg_1" 5 "hi".data
        { query := [], answer := [], sources := [], citations := [] }).chats.length =
        initialChatState.chats.length + 1) :=
  claim_C2_current_chat_contains_message initialChatState "chat_1" "msg_1" 5
    "hi".data { query := [], answer := [], sources := [], citations := [] }
    (by decide)

theorem updateChatWith_preserves (l : List Chat) (cid : String) (mid : String)
    (now : Nat) (q : Str) (r : SearchResponse) (t : Str)
    (hsort : ∀ c ∈ l, List.Pairwise (fun a b => a.timestamp ≤ b.timestamp) c.messages)
    (hbnd : ∀ c ∈ l, ∀ m ∈ c.messages, m.timestamp ≤ now) :
    ∀ c ∈ l.map (updateChatWith cid (ChatMessage.mk mid q r now) now t),
      List.Pairwise (fun a b => a.timestamp ≤ b.timestamp) c.messages ∧
      ∀ m ∈ c.messages, m.timestamp ≤ now := by
  intro c hc
  rcases List.mem_map.mp hc with ⟨c0, hc0, rfl⟩
  by_cases h : (c0.id == cid) = true
  · constructor
    · simp only [updateChatWith, if_pos h]
      refine List.pairwise_append.mpr ⟨hsort c0 hc0, List.pairwise_singleton _ _, ?_⟩
      intro a ha b hb
      rw [List.mem_singleton] at hb
      subst hb
      exact hbnd c0 hc0 a ha
    · simp only [updateChatWith, if_pos h]
      intro m hm
      rcases List.mem_append.mp hm with hm | hm
      · exact hbnd c0 hc0 m hm
      · rw [List.mem_singleton] at hm
        subst hm
        exact le_refl now
  · simp only [updateChatWith, if_neg h]
    exact ⟨hsort c0 hc0, hbnd c0 hc0⟩

/-- The chats after `addMessageToChat` are an identifier-keyed update mapped
over either the old collection or the old collection with one fresh empty
chat prepended. -/
theorem addMessage_chats_shape (st : ChatHistoryState) (nid mid : String)
    (now : Nat) (q : Str) (r : SearchResponse) :
    ∃ (cid : String) (l : List Chat),
      (addMessageToChat st nid mid now q r).chats =
        l.map (updateChatWith cid (ChatMessage.mk mid q r now) now
          (generateChatTitle q r)) ∧
      (l = st.chats ∨ ∃ nc : Chat, l = nc :: st.chats ∧ nc.messages = []) := by
  rcases hcid : st.currentChatId with - | cid0
  · refine ⟨nid, Chat.mk nid (generateChatTitle q r) [] now now :: st.chats,
      by simp [addMessageToChat, hcid], Or.inr ⟨_, rfl, rfl⟩⟩
  · by_cases hcid0 : cid0 = ""
    · subst hcid0
      refine ⟨nid, Chat.mk nid (generateChatTitle q r) [] now now :: st.chats,
        by simp [addMessageToChat, hcid], Or.inr ⟨_, rfl, rfl⟩⟩
    · have hcid0b : (cid0 == "") = false := by simpa using hcid0
      rcases hfind : st.chats.find? (fun c => c.id == cid0) with - | c0
      · refine ⟨nid, Chat.mk nid (generateChatTitle q r) [] now now :: st.chats,
          by simp [addMessageToChat, hcid, hcid0b, hfind], Or.inr ⟨_, rfl, rfl⟩⟩
      · exact ⟨cid0, st.chats, by simp [addMessageToChat, hcid, hcid0b, hfind],
          Or.inl rfl⟩

theorem runOps_sorted (ops : List StoreOp) :
    ∀ (st : ChatHistoryState) (t : Nat),
      (∀ c ∈ st.chats, List.Pairwise (fun a b => a.timestamp ≤ b.timestamp) c.messages) →
      (∀ c ∈ st.chats, ∀ m ∈ c.messages, m.timestamp ≤ t) →
      List.Chain' (· ≤ ·) (t :: ops.map StoreOp.now) →
      ∀ c ∈ (runOps st ops).chats,
        List.Pairwise (fun a b => a.timestamp ≤ b.timestamp) c.messages := by
  induction ops with
  | nil =>
    intro st t hs _ _
    exact hs
  | cons op ops ih =>
    intro st t hs hb hch
    obtain ⟨hhd, htl⟩ := List.chain'_cons'.mp hch
    have hle : t ≤ op.now := by
      simpa using hhd op.now
    have hb' : ∀ c ∈ st.chats, ∀ m ∈ c.messages, m.timestamp ≤ op.now :=
      fun c hc m hm => le_trans (hb c hc m hm) hle
    cases op with
    | newChat id t' fq =>
      refine ih (createNewChat st id t' fq) t' ?_ ?_ htl
      · intro c hc
        rcases List.mem_cons.mp hc with rfl | hc
        · exact List.Pairwise.nil
        · exact hs c hc
      · intro c hc
        rcases List.mem_cons.mp hc with rfl | hc
        · intro m hm
          cases hm
        · exact hb' c hc
    | addMsg nid' mid' t' q' r' =>
      refine ih (addMessageToChat st nid' mid' t' q' r') t' ?_ ?_ htl
      all_goals
        obtain ⟨cid, l, hshape, hl⟩ := addMessage_chats_shape st nid' mid' t' q' r'
      all_goals
        have hlsort : ∀ c ∈ l, List.Pairwise
            (fun a b => a.timestamp ≤ b.timestamp) c.messages := by
          rcases hl with rfl | ⟨nc, rfl, hnc⟩
          · exact hs
          · intro c hc
            rcases List.mem_cons.mp hc with rfl | hc
            · rw [hnc]; exact List.Pairwise.nil
            · exact hs c hc
      all_goals
        have hlbnd : ∀ c ∈ l, ∀ m ∈ c.messages, m.timestamp ≤ t' := by
          rcases hl with rfl | ⟨nc, rfl, hnc⟩
          · exact hb'
          · intro c hc
            rcases List.mem_cons.mp hc with rfl | hc
            · rw [hnc]; intro m hm; cases hm
            · exact hb' c hc
      · intro c hc
        rw [hshape] at hc
        exact (updateChatWith_preserves l cid mid' t' q' r' _ hlsort hlbnd c hc).1
      · intro c hc
        rw [hshape] at hc
        exact (updateChatWith_preserves l cid mid' t' q' r' _ hlsort hlbnd c hc).2

/-- Claim C5: starting from the empty state, any sequence of `createNewChat`
and `addMessageToChat` calls (with non-decreasing clock readings) leaves
every chat's messages sorted non-decreasing by timestamp, and each
`addMessageToChat` appends its message at the end of the resolved chat. -/
theorem claim_C5_messages_sorted (ops : List StoreOp) (hch : Chrono ops) :
    (∀ c ∈ (runOps initialChatState ops).chats,
      List.Pairwise (fun a b => a.timestamp ≤ b.timestamp) c.messages) ∧
    (∀ (st : ChatHistoryState) (nid mid : String) (now : Nat) (q : Str)
        (r : SearchResponse), nid ≠ "" →
      ∃ chat, getCurrentChat (addMessageToChat st nid mid now q r) = some chat ∧
        chat.messages.getLast? = some (ChatMessage.mk mid q r now)) := by
  constructor
  · refine runOps_sorted ops initialChatState 0 ?_ ?_ ?_
    · intro c hc
      cases hc
    · intro c hc
      cases hc
    · exact List.chain'_cons'.mpr ⟨fun y _ => Nat.zero_le y, hch⟩
  · intro st nid mid now q r hnid
    obtain ⟨pre, chat, hcur, hmsgs⟩ := getCurrentChat_addMessage st nid mid now q r hnid
    exact ⟨chat, hcur, by rw [hmsgs, List.getLast?_concat]⟩

theorem claim_C5_witness :
    ∃ chat, getCurrentChat (addMessageToChat initialChatState "c1" "m1" 3 "q".data
        { query := [], answer := [], sources := [], citations := [] }) = some chat ∧
      chat.messages.getLast? = some (ChatMessage.mk "m1" "q".data
        { query := [], answer := [], sources := [], citations := [] } 3) :=
  (claim_C5_messages_sorted [] List.chain'_nil).2 initialChatState "c1" "m1" 3 "q".data
    { query := [], answer := [], sources := [], citations := [] } (by decide)

/-! ## Claim C6: stale title rewrite is a no-op -/

/-- Claim C6: the identifier-keyed title rewrite is a no-op when the target
chat no longer exists — no exception, no re-created chat — and it never
touches a chat with a different identifier. -/
theorem claim_C6_stale_title_rewrite (chats : List Chat) (chatId : String) (t : Str) :
    ((∀ c ∈ chats, c.id ≠ chatId) → rewriteTitle chats chatId t = chats) ∧
    (∀ c ∈ chats, c.id ≠ chatId → c ∈ rewriteTitle chats chatId t) := by
  have hkeep : ∀ c : Chat, c.id ≠ chatId →
      (if c.id == chatId then { c with title := t } else c) = c := by
    intro c hne
    rw [if_neg (by simpa using hne)]
  constructor
  · intro h
    unfold rewriteTitle
    calc chats.map (fun c => if c.id == chatId then { c with title := t } else c)
        = chats.map id := List.map_congr_left (fun c hc => hkeep c (h c hc))
      _ = chats := List.map_id chats
  · intro c hc hne
    unfold rewriteTitle
    exact List.mem_map.mpr ⟨c, hc, hkeep c hne⟩

theorem claim_C6_witness :
    rewriteTitle [Chat.mk "a" [] [] 0 0] "b" "t".data = [Chat.mk "a" [] [] 0 0] :=
  (claim_C6_stale_title_rewrite [Chat.mk "a" [] [] 0 0] "b" "t".data).1 (by decide)

/-! ## Claim C8: `deleteChat` -/

theorem length_filter_remove (cid : String) (l : List Chat)
    (hnd : (l.map Chat.id).Nodup) (hmem : cid ∈ l.map Chat.id) :
    (l.filter (fun c => !(c.id == cid))).length + 1 = l.length := by
  induction l with
  | nil => cases hmem
  | cons c l ih =>
    rw [List.map_cons, List.nodup_cons] at hnd
    by_cases hc : c.id = cid
    · have hkeep : l.filter (fun c => !(c.id == cid)) = l := by
        rw [List.filter_eq_self]
        intro x hx
        have hne : x.id ≠ cid := by
          intro he
          apply hnd.1
          rw [hc, ← he]
          exact List.mem_map_of_mem Chat.id hx
        simpa using hne
      have hcb : (c.id == cid) = true := by simpa using hc
      simp [List.filter_cons, hcb, hkeep]
    · have hmem' : cid ∈ l.map Chat.id := by
        rcases List.mem_map.mp hmem with ⟨x, hx, hxid⟩
        rcases List.mem_cons.mp hx with rfl | hx
        · exact absurd hxid hc
        · exact hxid ▸ List.mem_map_of_mem Chat.id hx
      have hcb : (c.id == cid) = false := by simpa using hc
      simp only [List.filter_cons, hcb, Bool.not_false, if_true, List.length_cons]
      have hrec := ih hnd.2 hmem'
      omega

/-- Claim C8: `deleteChat` on a present id removes exactly that chat, keeping
the others in order; if the deleted chat was current, the pointer moves to
the first remaining chat (or null when none remain), otherwise it is
untouched. -/
theorem claim_C8_delete_chat (st : ChatHistoryState) (chatId : String)
    (hnd : (st.chats.map Chat.id).Nodup) (hmem : chatId ∈ st.chats.map Chat.id) :
    (deleteChat st chatId).chats.length + 1 = st.chats.length ∧
    (∀ c, c ∈ (deleteChat st chatId).chats ↔ c ∈ st.chats ∧ c.id ≠ chatId) ∧
    List.Sublist (deleteChat st chatId).chats st.chats ∧
    (st.currentChatId = some chatId →
      (deleteChat st chatId).currentChatId =
        ((deleteChat st chatId).chats.head?).map Chat.id) ∧
    (st.currentChatId ≠ some chatId →
      (deleteChat st chatId).currentChatId = st.currentChatId) := by
  refine ⟨length_filter_remove chatId st.chats hnd hmem, ?_, ?_, ?_, ?_⟩
  · intro c
    simp [deleteChat, List.mem_filter]
  · exact List.filter_sublist st.chats
  · intro hcur
    simp only [deleteChat, if_pos hcur]
    rcases hfil : st.chats.filter (fun c => !(c.id == chatId)) with - | ⟨c, l⟩ <;>
      rw [hfil] <;> rfl
  · intro hcur
    simp [deleteChat, if_neg hcur]

theorem claim_C8_witness :
    (deleteChat { chats := [Chat.mk "a" [] [] 0 0, Chat.mk "b" [] [] 1 1],
                  currentChatId := some "a", isLoading := false } "a").chats.length + 1 =
      ({ chats := [Chat.mk "a" [] [] 0 0, Chat.mk "b" [] [] 1 1],
         currentChatId := some "a", isLoading := false } : ChatHistoryState).chats.length :=
  (claim_C8_delete_chat _ "a" (by decide) (by decide)).1

/-! ## Claim C4: the heuristic title generator (corrected)

The source caps titles at 60 characters (truncating to 57 plus an ellipsis)
and falls back to `query.substring(0, 50)` only for an empty candidate, so
the claimed 50-character cap is refuted below; an under-3-character
candidate can only arise as the raw query itself, for which the fallback is
the identity. -/

/-- Counterexample to claim C4 as stated: a 55-character one-word query with
an empty answer produces a 55-character title, above the claimed
50-character cap (the code's cap is 60). -/
theorem claim_C4_counterexample :
    ¬ ((generateChatTitle (List.replicate 55 'a')
        { query := [], answer := [], sources := [], citations := [] }).length ≤ 50) := by
  decide

theorem capitalizeFirst_length (s : Str) :
    (capitalizeFirst s).length = s.length := by
  cases s <;> simp [capitalizeFirst]

theorem joinSpace_cons_length (w : Str) (ws : List Str) :
    w.length ≤ (joinSpace (w :: ws)).length := by
  cases ws with
  | nil => simp [joinSpace]
  | cons v vs => simp [joinSpace]

theorem queryWords_head_length (q : Str) (w : Str) (rest : List Str)
    (h : queryWordsOf q = w :: rest) : 3 < w.length := by
  have hw : w ∈ queryWordsOf q := by
    rw [h]
    exact List.mem_cons_self w rest
  unfold queryWordsOf at hw
  have hp := List.of_mem_filter hw
  rw [Bool.and_eq_true, decide_eq_true_eq] at hp
  exact hp.1

/-- A candidate under three characters can only be the raw query itself
(every template branch emits at least four characters). -/
theorem titleCandidate_short (q : Str) (r : SearchResponse)
    (h : (titleCandidate q r).length < 3) :
    titleCandidate q r = q ∧ q.length ≤ 50 := by
  unfold titleCandidate at h ⊢
  rcases hpn : properNounsOf r.answer with - | ⟨mainTopic, pns⟩
  · rcases hqw : queryWordsOf q with - | ⟨w, rest⟩
    · simp only [hpn, hqw] at h ⊢
      by_cases hlen : 50 < q.length
      · exfalso
        rw [if_pos hlen, List.length_append, List.length_take] at h
        have h3 : ("...".data).length = 3 := rfl
        omega
      · rw [if_neg hlen] at h ⊢
        exact ⟨rfl, by omega⟩
    · exfalso
      have hwlen : 3 < w.length := queryWords_head_length q w rest hqw
      simp only [hpn, hqw] at h
      have htake : List.take 3 (w :: rest) = w :: List.take 2 rest := rfl
      have hjoin := joinSpace_cons_length w (List.take 2 rest)
      rw [htake] at h
      split_ifs at h <;>
        simp only [List.length_append, List.length_cons, capitalizeFirst_length] at h <;>
        omega
  · exfalso
    simp only [hpn] at h
    split_ifs at h <;> simp only [List.length_append, List.length_cons] at h <;> omega

/-- Claim C4 (amended): the generated title is at most 60 characters;
candidates longer than 60 are truncated to 57 characters plus an ellipsis;
a candidate that is empty or under 3 characters falls back to the raw query
truncated to 50 characters. -/
theorem claim_C4_title_bounds (q : Str) (r : SearchResponse) :
    (generateChatTitle q r).length ≤ 60 ∧
    (60 < (titleCandidate q r).length →
      generateChatTitle q r = (titleCandidate q r).take 57 ++ "...".data) ∧
    (titleCandidate q r = [] → generateChatTitle q r = q.take 50) ∧
    ((titleCandidate q r).length < 3 → generateChatTitle q r = q.take 50) := by
  refine ⟨?_, ?_, ?_, ?_⟩
  · simp only [generateChatTitle]
    by_cases hlen : 60 < (titleCandidate q r).length
    · rw [if_pos hlen]
      have hne : ((titleCandidate q r).take 57 ++ "...".data).isEmpty = false := by
        simp
      rw [hne]
      simp only [Bool.false_eq_true, if_false, List.length_append, List.length_take]
      have h3 : (['.', '.', '.'] : Str).length = 3 := rfl
      omega
    · rw [if_neg hlen]
      by_cases hemp : (titleCandidate q r).isEmpty
      · rw [if_pos hemp]
        have := List.length_take 50 q
        simp only [List.length_take]
        omega
      · rw [if_neg hemp]
        omega
  · intro hlen
    simp only [generateChatTitle]
    rw [if_pos hlen]
    have hne : ((titleCandidate q r).take 57 ++ "...".data).isEmpty = false := by
      simp
    rw [hne]
    simp
  · intro hemp
    simp only [generateChatTitle]
    rw [hemp]
    simp
  · intro hlen
    by_cases hemp : titleCandidate q r = []
    · simp only [generateChatTitle]
      rw [hemp]
      simp
    · obtain ⟨heq, hle⟩ := titleCandidate_short q r hlen
      simp only [generateChatTitle]
      rw [heq]
      have h60 : ¬ 60 < q.length := by
        rw [heq] at hlen
        omega
      rw [if_neg h60]
      have hqne : q.isEmpty = false := by
        rw [heq] at hemp
        simpa using hemp
      rw [hqne]
      simp only [Bool.false_eq_true, if_false]
      rw [List.take_of_length_le hle]

theorem claim_C4_witness :
    (generateChatTitle (List.replicate 55 'a')
      { query := [], answer := [], sources := [], citations := [] }).length ≤ 60 :=
  (claim_C4_title_bounds (List.replicate 55 'a')
    { query := [], answer := [], sources := [], citations := [] }).1

/-! ## Claims C7 and C9: persistence round trip

The load effect must invert `JSON.stringify`'s date serialization, so the
heart of the round trip is `parseISO (toISOString t) = t`.  The proof walks
the codec layer by layer: decimal digits, zero padding, the year walk, the
month table, and the millisecond split. -/

theorem digitVal_digitChar (n : Nat) (h : n < 10) : digitVal (digitChar n) = n := by
  interval_cases n <;> rfl

theorem isDig_digitChar (n : Nat) (h : n < 10) : isDig (digitChar n) = true := by
  interval_cases n <;> rfl

theorem ofDigits_append_singleton (ds : Str) (c : Char) :
    ofDigits (ds ++ [c]) = 10 * ofDigits ds + digitVal c := by
  simp [ofDigits, List.foldl_append]

theorem natDigitsAux_spec (fuel : Nat) :
    ∀ n, n < fuel →
      ofDigits (natDigitsAux fuel n) = n ∧ ∀ c ∈ natDigitsAux fuel n, isDig c = true := by
  induction fuel with
  | zero =>
    intro n h
    omega
  | succ f ih =>
    intro n h
    by_cases h10 : n < 10
    · refine ⟨?_, ?_⟩
      · simp [natDigitsAux, if_pos h10, ofDigits, digitVal_digitChar n h10]
      · intro c hc
        simp only [natDigitsAux, if_pos h10, List.mem_singleton] at hc
        subst hc
        exact isDig_digitChar n h10
    · have hdiv : n / 10 < f := by
        have h1 : n / 10 < n := Nat.div_lt_self (by omega) (by omega)
        omega
      obtain ⟨ih1, ih2⟩ := ih (n / 10) hdiv
      refine ⟨?_, ?_⟩
      · simp only [natDigitsAux, if_neg h10, ofDigits_append_singleton, ih1,
          digitVal_digitChar (n % 10) (Nat.mod_lt n (by omega))]
        omega
      · intro c hc
        simp only [natDigitsAux, if_neg h10, List.mem_append, List.mem_singleton] at hc
        rcases hc with hc | rfl
        · exact ih2 c hc
        · exact isDig_digitChar (n % 10) (Nat.mod_lt n (by omega))

theorem ofDigits_natDigits (n : Nat) : ofDigits (natDigits n) = n :=
  (natDigitsAux_spec (n + 1) n (Nat.lt_succ_self n)).1

theorem natDigits_all_digits (n : Nat) : ∀ c ∈ natDigits n, isDig c = true :=
  (natDigitsAux_spec (n + 1) n (Nat.lt_succ_self n)).2

theorem ofDigits_replicate_zero (k : Nat) (ds : Str) :
    ofDigits (List.replicate k '0' ++ ds) = ofDigits ds := by
  induction k with
  | zero => rfl
  | succ j ih =>
    simpa [List.replicate_succ, ofDigits, List.foldl_cons] using ih

theorem ofDigits_padTo (w n : Nat) : ofDigits (padTo w (natDigits n)) = n := by
  rw [padTo, ofDigits_replicate_zero, ofDigits_natDigits]

theorem padTo_all_digits (w n : Nat) : ∀ c ∈ padTo w (natDigits n), isDig c = true := by
  intro c hc
  rcases List.mem_append.mp hc with hc | hc
  · rw [List.eq_of_mem_replicate hc]
    rfl
  · exact natDigits_all_digits n c hc

theorem natDigitsAux_small (fuel m : Nat) (hf : 0 < fuel) (hm : m < 10) :
    natDigitsAux fuel m = [digitChar m] := by
  cases fuel with
  | zero => omega
  | succ f => simp [natDigitsAux, if_pos hm]

theorem natDigits_two (n : Nat) (h1 : 10 ≤ n) (h2 : n < 100) :
    natDigits n = [digitChar (n / 10), digitChar (n % 10)] := by
  have h10 : ¬ n < 10 := by omega
  rw [natDigits, show natDigitsAux (n + 1) n =
    natDigitsAux n (n / 10) ++ [digitChar (n % 10)] from by simp [natDigitsAux, h10]]
  rw [natDigitsAux_small n (n / 10) (by omega) (by omega)]
  rfl

theorem natDigits_three (n : Nat) (h1 : 100 ≤ n) (h2 : n < 1000) :
    natDigits n = [digitChar (n / 100), digitChar (n / 10 % 10), digitChar (n % 10)] := by
  have h10 : ¬ n < 10 := by omega
  rw [natDigits, show natDigitsAux (n + 1) n =
    natDigitsAux n (n / 10) ++ [digitChar (n % 10)] from by simp [natDigitsAux, h10]]
  obtain ⟨m, rfl⟩ : ∃ m, n = m + 1 := ⟨n - 1, by omega⟩
  have hnot : ¬ (m + 1) / 10 < 10 := by omega
  rw [show natDigitsAux (m + 1) ((m + 1) / 10) =
    natDigitsAux m ((m + 1) / 10 / 10) ++ [digitChar ((m + 1) / 10 % 10)] from by
      simp [natDigitsAux, hnot]]
  have hdd : (m + 1) / 10 / 10 = (m + 1) / 100 := Nat.div_div_eq_div_mul (m + 1) 10 10
  rw [hdd, natDigitsAux_small m ((m + 1) / 100) (by omega) (by omega)]
  rfl

theorem pad2_eq (n : Nat) (h : n < 100) :
    pad2 n = [digitChar (n / 10), digitChar (n % 10)] := by
  by_cases h10 : n < 10
  · rw [pad2, padTo, natDigits, natDigitsAux_small (n + 1) n (by omega) h10]
    have hd : n / 10 = 0 := Nat.div_eq_of_lt h10
    have hm : n % 10 = n := Nat.mod_eq_of_lt h10
    have hc : digitChar 0 = '0' := rfl
    simp [hd, hm, hc, List.replicate]
  · rw [pad2, padTo, natDigits_two n (by omega) h]
    simp

theorem pad3_eq (n : Nat) (h : n < 1000) :
    pad3 n = [digitChar (n / 100), digitChar (n / 10 % 10), digitChar (n % 10)] := by
  by_cases h10 : n < 10
  · rw [pad3, padTo, natDigits, natDigitsAux_small (n + 1) n (by omega) h10]
    have hd : n / 100 = 0 := Nat.div_eq_of_lt (by omega)
    have hd2 : n / 10 % 10 = 0 := by
      rw [Nat.div_eq_of_lt h10]
    have hm : n % 10 = n := Nat.mod_eq_of_lt h10
    have hc : digitChar 0 = '0' := rfl
    simp [hd, hd2, hm, hc, List.replicate]
  · by_cases h100 : n < 100
    · rw [pad3, padTo, natDigits_two n (by omega) h100]
      have hd : n / 100 = 0 := Nat.div_eq_of_lt h100
      have hd2 : n / 10 % 10 = n / 10 := Nat.mod_eq_of_lt (by omega)
      have hc : digitChar 0 = '0' := rfl
      simp [hd, hd2, hc, List.replicate]
    · rw [pad3, padTo, natDigits_three n (by omega) h]
      simp

theorem takeWhile_append_cons (p : Char → Bool) (xs : Str) (y : Char) (ys : Str)
    (hxs : ∀ c ∈ xs, p c = true) (hy : p y = false) :
    (xs ++ y :: ys).takeWhile p = xs := by
  induction xs with
  | nil => simp [List.takeWhile_cons, hy]
  | cons x xs ih =>
    have hx : p x = true := hxs x (List.mem_cons_self x xs)
    simp only [List.cons_append, List.takeWhile_cons, hx, if_true]
    rw [ih (fun c hc => hxs c (List.mem_cons_of_mem x hc))]

theorem daysInYear_ge (y : Nat) : 365 ≤ daysInYear y := by
  unfold daysInYear
  split <;> omega

theorem daysBeforeYear_succ (y : Nat) (h : 1970 ≤ y) :
    daysBeforeYear (y + 1) = daysBeforeYear y + daysInYear y := by
  unfold daysBeforeYear
  have h1 : y + 1 - 1970 = (y - 1970) + 1 := by omega
  have h2 : 1970 + (y - 1970) = y := by omega
  rw [h1]
  rw [show daysBeforeYearAux ((y - 1970) + 1) =
    daysBeforeYearAux (y - 1970) + daysInYear (1970 + (y - 1970)) from rfl, h2]

theorem yearDoyAux_spec (fuel : Nat) :
    ∀ y d, d ≤ fuel → 1970 ≤ y →
      daysBeforeYear (yearDoyAux fuel y d).1 + (yearDoyAux fuel y d).2 =
        daysBeforeYear y + d ∧
      (yearDoyAux fuel y d).2 < daysInYear (yearDoyAux fuel y d).1 ∧
      1970 ≤ (yearDoyAux fuel y d).1 := by
  induction fuel with
  | zero =>
    intro y d hd hy
    have hd0 : d = 0 := by omega
    subst hd0
    refine ⟨rfl, ?_, hy⟩
    have := daysInYear_ge y
    show (0 : Nat) < daysInYear y
    omega
  | succ f ih =>
    intro y d hd hy
    by_cases hlt : d < daysInYear y
    · simp only [yearDoyAux, if_pos hlt]
      exact ⟨trivial, hlt, hy⟩
    · have hge := daysInYear_ge y
      have h1 : d - daysInYear y ≤ f := by omega
      obtain ⟨s1, s2, s3⟩ := ih (y + 1) (d - daysInYear y) h1 (by omega)
      simp only [yearDoyAux, if_neg hlt]
      refine ⟨?_, s2, s3⟩
      rw [s1, daysBeforeYear_succ y hy]
      omega

theorem yearDoy_spec (d : Nat) :
    daysBeforeYear (yearDoy d).1 + (yearDoy d).2 = d ∧
    (yearDoy d).2 < daysInYear (yearDoy d).1 ∧ 1970 ≤ (yearDoy d).1 := by
  have h := yearDoyAux_spec d 1970 d (le_refl d) (le_refl 1970)
  have h0 : daysBeforeYear 1970 = 0 := rfl
  rw [h0] at h
  simpa [yearDoy] using h

theorem monthDoyAux_spec (ls : List Nat) :
    ∀ d, (ls.take (monthDoyAux ls d).1).sum + (monthDoyAux ls d).2 = d ∧
      (monthDoyAux ls d).1 ≤ ls.length ∧
      ((∀ x ∈ ls, x ≤ 31) → d < ls.sum → (monthDoyAux ls d).2 < 31) := by
  induction ls with
  | nil =>
    intro d
    refine ⟨by simp [monthDoyAux], by simp [monthDoyAux], ?_⟩
    intro _ hd
    simp only [List.sum_nil] at hd
    omega
  | cons ml rest ih =>
    intro d
    by_cases hlt : d < ml
    · simp only [monthDoyAux, if_pos hlt]
      refine ⟨by simp, by simp, ?_⟩
      intro hall _
      have := hall ml (List.mem_cons_self ml rest)
      omega
    · rcases hmr : monthDoyAux rest (d - ml) with ⟨m, r⟩
      have s1 : (rest.take m).sum + r = d - ml := by
        simpa [hmr] using (ih (d - ml)).1
      have s2 : m ≤ rest.length := by
        simpa [hmr] using (ih (d - ml)).2.1
      have s3 : (∀ x ∈ rest, x ≤ 31) → d - ml < rest.sum → r < 31 := by
        simpa [hmr] using (ih (d - ml)).2.2
      simp only [monthDoyAux, if_neg hlt, hmr]
      refine ⟨?_, ?_, ?_⟩
      · simp only [List.take_succ_cons, List.sum_cons]
        omega
      · simp only [List.length_cons]
        omega
      · intro hall hd
        refine s3 (fun x hx => hall x (List.mem_cons_of_mem ml hx)) ?_
        simp only [List.sum_cons] at hd
        omega

theorem monthLengths_sum_true : (monthLengths true).sum = 366 := by decide

theorem monthLengths_sum_false : (monthLengths false).sum = 365 := by decide

theorem monthLengths_le (b : Bool) : ∀ x ∈ monthLengths b, x ≤ 31 := by
  cases b <;> decide

theorem monthLengths_length (b : Bool) : (monthLengths b).length = 12 := by
  cases b <;> rfl

theorem daysInYear_eq_sum (y : Nat) :
    daysInYear y = (monthLengths (isLeap y)).sum := by
  unfold daysInYear
  rcases hb : isLeap y
  · rw [monthLengths_sum_false]
    simp
  · rw [monthLengths_sum_true]
    simp

theorem ofDigits_two (a b : Nat) (ha : a < 10) (hb : b < 10) :
    ofDigits [digitChar a, digitChar b] = 10 * a + b := by
  simp [ofDigits, digitVal_digitChar a ha, digitVal_digitChar b hb]

theorem ofDigits_three (a b c : Nat) (ha : a < 10) (hb : b < 10) (hc : c < 10) :
    ofDigits [digitChar a, digitChar b, digitChar c] = 100 * a + 10 * b + c := by
  simp [ofDigits, digitVal_digitChar a ha, digitVal_digitChar b hb,
    digitVal_digitChar c hc]
  ring

/-- Evaluate `parseISO` once the string is split into year digits and the
fixed-width tail. -/
theorem parseISO_eval (s yd : Str) (m1 m2 d1 d2 h1 h2 i1 i2 s1 s2 x1 x2 x3 : Char)
    (hclen : s.takeWhile isDig = yd)
    (hrest : s.drop yd.length =
      '-' :: m1 :: m2 :: '-' :: d1 :: d2 :: 'T' :: h1 :: h2 :: ':' :: i1 :: i2 ::
        ':' :: s1 :: s2 :: '.' :: x1 :: x2 :: x3 :: ['Z']) :
    parseISO s =
      (daysBeforeYear (ofDigits yd) +
        ((monthLengths (isLeap (ofDigits yd))).take (ofDigits [m1, m2] - 1)).sum +
        (ofDigits [d1, d2] - 1)) * 86400000 +
      ofDigits [h1, h2] * 3600000 + ofDigits [i1, i2] * 60000 +
      ofDigits [s1, s2] * 1000 + ofDigits [x1, x2, x3] := by
  simp only [parseISO, hclen, hrest]


-- The heart of claim C7: formatting a time value to its ISO string and
-- parsing it back is the identity.
set_option maxHeartbeats 1000000 in
theorem parseISO_toISOString (t : Nat) : parseISO (toISOString t) = t := by
  obtain ⟨hysum, hylt, hyge⟩ := yearDoy_spec (t / 86400000)
  set d := t / 86400000 with hd
  set rem := t % 86400000 with hrem
  set Y := (yearDoy d).1 with hY
  set doy := (yearDoy d).2 with hdoy
  rcases hmd : monthDoyAux (monthLengths (isLeap Y)) doy with ⟨m, dayIdx⟩
  have hspec := monthDoyAux_spec (monthLengths (isLeap Y)) doy
  have hmsum : ((monthLengths (isLeap Y)).take m).sum + dayIdx = doy := by
    simpa [hmd] using hspec.1
  have hmle : m ≤ 12 := by
    have h := hspec.2.1
    rw [hmd, monthLengths_length] at h
    exact h
  have hday : dayIdx < 31 := by
    have h := hspec.2.2
    rw [hmd] at h
    refine h (monthLengths_le _) ?_
    rw [← daysInYear_eq_sum]
    exact hylt
  have hrem_lt : rem < 86400000 := by
    rw [hrem]
    exact Nat.mod_lt t (by omega)
  have hiso : toISOString t =
      pad4 Y ++ '-' :: pad2 (m + 1) ++ '-' :: pad2 (dayIdx + 1) ++
      'T' :: pad2 (rem / 3600000) ++ ':' :: pad2 (rem % 3600000 / 60000) ++ ':' ::
      pad2 (rem % 60000 / 1000) ++ '.' :: pad3 (rem % 1000) ++ ['Z'] := by
    simp only [toISOString, ← hd, ← hrem, ← hY, ← hdoy, hmd]
  have hdig : ∀ c ∈ pad4 Y, isDig c = true := padTo_all_digits 4 Y
  set P := pad4 Y with hP
  have htake : (toISOString t).takeWhile isDig = P := by
    rw [hiso]
    simp only [List.append_assoc, List.cons_append]
    exact takeWhile_append_cons isDig P '-' _ hdig rfl
  have hp2m := pad2_eq (m + 1) (by omega)
  have hp2d := pad2_eq (dayIdx + 1) (by omega)
  have hp2h := pad2_eq (rem / 3600000) (by omega)
  have hp2i := pad2_eq (rem % 3600000 / 60000) (by omega)
  have hp2s := pad2_eq (rem % 60000 / 1000) (by omega)
  have hp3 := pad3_eq (rem % 1000) (by omega)
  have hdrop : (toISOString t).drop P.length =
      '-' :: digitChar ((m + 1) / 10) :: digitChar ((m + 1) % 10) :: '-' ::
      digitChar ((dayIdx + 1) / 10) :: digitChar ((dayIdx + 1) % 10) :: 'T' ::
      digitChar (rem / 3600000 / 10) :: digitChar (rem / 3600000 % 10) :: ':' ::
      digitChar (rem % 3600000 / 60000 / 10) :: digitChar (rem % 3600000 / 60000 % 10) :: ':' ::
      digitChar (rem % 60000 / 1000 / 10) :: digitChar (rem % 60000 / 1000 % 10) :: '.' ::
      digitChar (rem % 1000 / 100) :: digitChar (rem % 1000 / 10 % 10) ::
      digitChar (rem % 1000 % 10) :: ['Z'] := by
    rw [hiso]
    simp only [List.append_assoc, List.cons_append]
    rw [List.drop_left, hp2m, hp2d, hp2h, hp2i, hp2s, hp3]
    simp [List.cons_append]
  rw [parseISO_eval (toISOString t) P _ _ _ _ _ _ _ _ _ _ _ _ _ htake hdrop]
  have e1 : ofDigits P = Y := by
    rw [hP]
    exact ofDigits_padTo 4 Y
  have hK : ofDigits [digitChar ((m + 1) / 10), digitChar ((m + 1) % 10)] - 1 = m := by
    rw [ofDigits_two _ _ (by omega) (by omega)]
    omega
  have hD : ofDigits [digitChar ((dayIdx + 1) / 10), digitChar ((dayIdx + 1) % 10)] - 1 =
      dayIdx := by
    rw [ofDigits_two _ _ (by omega) (by omega)]
    omega
  have hH : ofDigits [digitChar (rem / 3600000 / 10), digitChar (rem / 3600000 % 10)] =
      rem / 3600000 := by
    rw [ofDigits_two _ _ (by omega) (by omega)]
    omega
  have hI : ofDigits [digitChar (rem % 3600000 / 60000 / 10),
      digitChar (rem % 3600000 / 60000 % 10)] = rem % 3600000 / 60000 := by
    rw [ofDigits_two _ _ (by omega) (by omega)]
    omega
  have hS : ofDigits [digitChar (rem % 60000 / 1000 / 10),
      digitChar (rem % 60000 / 1000 % 10)] = rem % 60000 / 1000 := by
    rw [ofDigits_two _ _ (by omega) (by omega)]
    omega
  have hX : ofDigits [digitChar (rem % 1000 / 100), digitChar (rem % 1000 / 10 % 10),
      digitChar (rem % 1000 % 10)] = rem % 1000 := by
    rw [ofDigits_three _ _ _ (by omega) (by omega) (by omega)]
    omega
  rw [e1, hK, hD, hH, hI, hS, hX]
  omega

theorem loadMsg_storeMsg (m : ChatMessage) : loadMsg (storeMsg m) = m := by
  cases m with
  | mk id query response timestamp =>
    simp [loadMsg, storeMsg, parseISO_toISOString]

theorem loadChats_saveChats (cs : List Chat) : loadChats (saveChats cs) = cs := by
  induction cs with
  | nil => rfl
  | cons c cs ih =>
    unfold loadChats saveChats at *
    simp only [List.map_cons, List.cons.injEq]
    refine ⟨?_, ih⟩
    cases c with
    | mk id title messages createdAt updatedAt =>
      simp [List.map_map, parseISO_toISOString, loadMsg_storeMsg, Function.comp]
      calc List.map (loadMsg ∘ storeMsg) messages
          = List.map (fun m => m) messages :=
            List.map_congr_left (fun m _ => loadMsg_storeMsg m)
        _ = messages := List.map_id' messages

/-- Claim C7: serializing the chat collection to the durable slot and then
deserializing it — including the ISO-string-to-instant reconstruction of
`createdAt`, `updatedAt`, and every message timestamp — yields a logically
equal collection. -/
theorem claim_C7_persistence_round_trip (cs : List Chat) :
    loadChats (saveChats cs) = cs :=
  loadChats_saveChats cs

/-- Claim C9: persistence stores only the chats array; hydration restores
the chats but always leaves `currentChatId` null and `isLoading` false,
whatever was active when the state was saved. -/
theorem claim_C9_hydration_pointer_null (slot : StoredSlot) (cs : List Chat) :
    (hydrate slot).currentChatId = none ∧ (hydrate slot).isLoading = false ∧
    hydrate (.data (saveChats cs)) =
      { chats := cs, currentChatId := none, isLoading := false } := by
  refine ⟨?_, ?_, ?_⟩
  · cases slot <;> rfl
  · cases slot <;> rfl
  · simp [hydrate, initialChatState, loadChats_saveChats]
